import Mathlib

/-!
Shallow embedding of the decision and adjudication engine of the
city-chase pursuit game (source: src/src/App.tsx).

Conventions of the embedding:
* JS numbers holding board coordinates and turn counters are modelled as
  `Int` (coordinates may go out of bounds before the bounds filter runs,
  exactly as in the source).
* JS `Record<string, T>` objects keyed by `keyCell`/`keyNode` strings are
  modelled as association lists `List (Cell × T)`; the key strings
  `"r,c"` are in bijection with the coordinate pairs, so the cells
  themselves serve as keys.  `Object.keys` is `List.map Prod.fst`,
  record lookup (with JS `undefined` giving the falsy default) is
  `recLookup`, and record assignment is `recordSet`.
* JS `Set` objects of cell keys are modelled as `List Cell` used only
  through membership, `Set.add` being `List.cons`.
* Floating point arithmetic of the heat model is idealised as real
  arithmetic (`ℝ`), with `Math.exp` as `Real.exp` and `Math.round` as
  `round`; those definitions are `noncomputable` for that reason only.
* `Array.prototype.sort` with a numeric comparator `f a b` is modelled
  as `List.mergeSort` with the Bool comparator `f a b ≤ 0`; only the
  sortedness and the permutation property of the result are used.
-/

/-- Game constants from the source (GRID, NODE, MAX_TURN, ACTIONS_PER_TURN). -/
def GRID : Int := 5

def NODE : Int := 4

def MAX_TURN : Int := 11

def ACTIONS_PER_TURN : Int := 3

/-- A board block, `{r, c}` with coordinates intended in 0..4. -/
structure Cell where
  r : Int
  c : Int
deriving DecidableEq, Repr

instance : Inhabited Cell := ⟨⟨0, 0⟩⟩

/-- An intersection, `{r, c}` with coordinates intended in 0..3. -/
structure Node where
  r : Int
  c : Int
deriving DecidableEq, Repr

instance : Inhabited Node := ⟨⟨0, 0⟩⟩

/-- Source `inBoundsCell`. -/
def inBoundsCell (x : Cell) : Bool :=
  0 ≤ x.r && x.r < GRID && 0 ≤ x.c && x.c < GRID

/-- Source `neighborsCell`: the up/down/left/right cells, bounds-filtered. -/
def neighborsCell (x : Cell) : List Cell :=
  [⟨x.r - 1, x.c⟩, ⟨x.r + 1, x.c⟩, ⟨x.r, x.c - 1⟩, ⟨x.r, x.c + 1⟩].filter inBoundsCell

/-- Source `inBoundsNode`. -/
def inBoundsNode (n : Node) : Bool :=
  0 ≤ n.r && n.r < NODE && 0 ≤ n.c && n.c < NODE

/-- Source `neighborsNode`. -/
def neighborsNode (n : Node) : List Node :=
  [⟨n.r - 1, n.c⟩, ⟨n.r + 1, n.c⟩, ⟨n.r, n.c - 1⟩, ⟨n.r, n.c + 1⟩].filter inBoundsNode

/-- Source `surroundingCells`: the 2×2 block of cells around a node. -/
def surroundingCells (n : Node) : List Cell :=
  [⟨n.r, n.c⟩, ⟨n.r, n.c + 1⟩, ⟨n.r + 1, n.c⟩, ⟨n.r + 1, n.c + 1⟩]

/-- Source `manhattanCell`. -/
def manhattanCell (a b : Cell) : Int :=
  |a.r - b.r| + |a.c - b.c|

/-- Record lookup with a default, modelling `record[key]` where a missing
key yields the (falsy) default. -/
def recLookup {β : Type} (l : List (Cell × β)) (k : Cell) (d : β) : β :=
  match l.find? (fun p => p.1 = k) with
  | some p => p.2
  | none => d

/-- Record assignment `record[key] = value` on a copy: replaces the value
at an existing key, otherwise appends the binding. -/
def recordSet {β : Type} (l : List (Cell × β)) (k : Cell) (v : β) : List (Cell × β) :=
  if l.any (fun p => p.1 = k) then l.map (fun p => if p.1 = k then (k, v) else p)
  else l ++ [(k, v)]

/-- Visit records: the per-cell lists of turns (`visits[k] ?? []`). -/
def lookupVisits (visits : List (Cell × List Int)) (k : Cell) : List Int :=
  recLookup visits k []

/-- Revealed flags: `!!revealed[k]`. -/
def lookupRevealed (revealed : List (Cell × Bool)) (k : Cell) : Bool :=
  recLookup revealed k false

/-- Free degree of a cell: its in-bounds neighbors not in the visited set
(the comparator value used by the planner sorts). -/
def freeDeg (vs : List Cell) (x : Cell) : Nat :=
  ((neighborsCell x).filter (fun y => !decide (y ∈ vs))).length

/-- Source `canFinishFrom` inside `criminalAiNextMoveNoStuck`: exhaustive
backtracking search for a self-avoiding continuation of `stepsLeft`
adjacent moves from `pos` avoiding `visitedSet`.  The JS mutation of
`visitedSet` (add before the recursive call, delete after) is the
functional `n :: visitedSet` on the recursive call.  The JS base case
`stepsLeft <= 0` is the `Nat` zero case (callers clamp at 0 exactly as
JS lets the argument go negative into the same base case). -/
def canFinishFrom (pos : Cell) (stepsLeft : Nat) (visitedSet : List Cell) : Bool :=
  match stepsLeft with
  | 0 => true
  | k + 1 =>
    let neigh := (neighborsCell pos).filter (fun n => !decide (n ∈ visitedSet))
    let sorted := neigh.mergeSort (fun a b => freeDeg visitedSet a ≤ freeDeg visitedSet b)
    sorted.any (fun n => canFinishFrom n k (n :: visitedSet))

/-- Planner ranking score for the final sort of `criminalAiNextMoveNoStuck`:
`freeDeg * 10 + 1 / (1 + manhattan-to-center)`, as an exact rational. -/
def moveScore (visited : List Cell) (a : Cell) : ℚ :=
  (freeDeg visited a : ℚ) * 10 + 1 / (1 + (manhattanCell a ⟨2, 2⟩ : ℚ))

/-- Result record of the escape planner (`{ next, stuck }`). -/
structure AiMove where
  next : Cell
  stuck : Bool
deriving DecidableEq, Repr

/-- Source `criminalAiNextMoveNoStuck`: the evader escape planner.
`visited` is `Set(Object.keys(visits))`; `remainingMoves` is
`MAX_TURN - currentTurn` clamped at 0 (`toNat` — JS passes the negative
value on, but every use falls into the `stepsLeft <= 0` base case, so
the clamp is extensionally identical). -/
def criminalAiNextMoveNoStuck (current : Cell) (visits : List (Cell × List Int))
    (currentTurn : Int) : AiMove :=
  let visited := visits.map Prod.fst
  let remainingMoves := (MAX_TURN - currentTurn).toNat
  let nextCandidates := (neighborsCell current).filter (fun n => !decide (n ∈ visited))
  if nextCandidates.isEmpty then ⟨current, true⟩
  else
    let safeMoves := nextCandidates.filter
      (fun cand => canFinishFrom cand (remainingMoves - 1) (cand :: visited))
    let pickFrom := if safeMoves.isEmpty then nextCandidates else safeMoves
    let sorted := pickFrom.mergeSort (fun a b => moveScore visited b ≤ moveScore visited a)
    ⟨sorted.headI, false⟩

/-- Specification-side notion of a legal escape continuation: `l` is a
sequence of cells, each an in-bounds orthogonal neighbor of the previous
position, none revisiting the visited set accumulated so far. -/
def validStepsB : Cell → List Cell → List Cell → Bool
  | _, _, [] => true
  | p, vs, x :: rest =>
    decide (x ∈ neighborsCell p) && !decide (x ∈ vs) && validStepsB x (x :: vs) rest

/-- Phase union from the source. -/
inductive Phase where
  | ROLE_SELECT
  | POLICE_SETUP
  | POLICE_TURN
  | CRIMINAL_AI_MOVING
  | CRIMINAL_HIDE
  | POLICE_AI_TURN
  | CRIMINAL_MOVE
  | END
deriving DecidableEq, Repr

/-- Role union ("POLICE" | "CRIMINAL"); also the winner values. -/
inductive Role where
  | POLICE
  | CRIMINAL
deriving DecidableEq, Repr

/-- Mode union ("SINGLE" | "PASS_PLAY"). -/
inductive Mode where
  | SINGLE
  | PASS_PLAY
deriving DecidableEq, Repr

open Phase Role Mode

/-- Search mark record (`{ turn, target, heliIndex }`). -/
structure SearchMark where
  turn : Int
  target : Cell
  heliIndex : Nat
deriving DecidableEq, Repr

/-- Radio log state (`{ turn, lines }`). -/
structure RadioState where
  turn : Int
  lines : List String
deriving DecidableEq, Repr

/-- Handoff overlay state (`{ show, to, message }`); the JS field names
`show` and `to` are Lean keywords, rendered here as `shown` and
`toViewer`; the viewer shares the Role union. -/
structure Handoff where
  shown : Bool
  toViewer : Role
  message : String
deriving DecidableEq, Repr

/-- The GameState record from the source.  `viewer` shares the Role
union; `winner` uses `Option Role` for `"POLICE" | "CRIMINAL" | null`. -/
structure GameState where
  mode : Mode
  role : Option Role
  viewer : Role
  phase : Phase
  turn : Int
  helicopters : List Node
  selectedHeli : Option Nat
  actionsLeft : Int
  heliActed : List Bool
  criminalPos : Option Cell
  visits : List (Cell × List Int)
  revealed : List (Cell × Bool)
  searched : List (Cell × Bool)
  criminalPath : List Cell
  lastPoliceSearches : List SearchMark
  policeAiRadio : RadioState
  policeAiThinking : Bool
  criminalMoving : Bool
  moveWaitSec : Int
  winner : Option Role
  handoff : Handoff
deriving DecidableEq, Repr

/-- JS `array.slice(-n)`: the last `n` elements. -/
def takeLast {α : Type} (l : List α) (n : Nat) : List α :=
  l.drop (l.length - n)

/-- JS `Array.from(new Set(list))`: deduplicate keeping first occurrences. -/
def jsDedup {α : Type} [DecidableEq α] (l : List α) : List α :=
  l.foldl (fun acc a => if a ∈ acc then acc else acc ++ [a]) []

/-- Source `currentHeliCanAct`: phase, selection, budget, no evader
animation in flight, pass-and-play viewer gating, and the per-turn acted
flag of the selected unit (`!state.heliActed[i]`, where an out-of-range
index gives the falsy `undefined`, i.e. the `getD` default). -/
def currentHeliCanAct (s : GameState) : Bool :=
  if s.phase ≠ POLICE_TURN then false
  else match s.selectedHeli with
    | none => false
    | some i =>
      if s.actionsLeft ≤ 0 then false
      else if s.criminalMoving then false
      else if s.mode = PASS_PLAY ∧ s.viewer ≠ POLICE then false
      else !(s.heliActed.getD i false)

/-- Source `moveHeliPlayer`: a pursuer unit move.  `occupied` is the set
of unit node keys minus the acting unit's own key, so the occupancy test
is membership in the other units' nodes. -/
def moveHeliPlayer (s : GameState) (tgt : Node) : GameState :=
  if s.phase ≠ POLICE_TURN then s
  else match s.selectedHeli with
    | none => s
    | some i =>
      if ¬ currentHeliCanAct s then s
      else
        let own := s.helicopters.getD i default
        if tgt ∈ s.helicopters.filter (fun h => h ≠ own) then s
        else if ¬ tgt ∈ neighborsNode own then s
        else
          { s with
            helicopters := s.helicopters.set i tgt
            heliActed := s.heliActed.set i true
            actionsLeft := s.actionsLeft - 1 }

/-- Source `searchCellPlayer`: a pursuer search on `target` from the
selected unit's node, with the arrest adjudication when the target holds
the secret evader cell.  `policeSearchMode` is the separate
`useState` flag read by the handler. -/
def searchCellPlayer (policeSearchMode : Bool) (s : GameState) (target : Cell) : GameState :=
  if s.phase ≠ POLICE_TURN then s
  else match s.selectedHeli with
    | none => s
    | some i =>
      if ¬ policeSearchMode then s
      else if ¬ currentHeliCanAct s then s
      else
        let node := s.helicopters.getD i default
        if ¬ target ∈ surroundingCells node then s
        else
          let searched := recordSet s.searched target true
          let newMark : SearchMark := ⟨s.turn, target, i⟩
          let lastPoliceSearches := takeLast (s.lastPoliceSearches ++ [newMark]) 3
          if s.criminalPos = some target then
            { s with
              phase := END
              winner := some POLICE
              searched := searched
              lastPoliceSearches := lastPoliceSearches }
          else
            let revealed :=
              if lookupVisits s.visits target ≠ [] ∧ lookupRevealed s.revealed target = false
              then recordSet s.revealed target true else s.revealed
            { s with
              searched := searched
              revealed := revealed
              heliActed := s.heliActed.set i true
              actionsLeft := s.actionsLeft - 1
              lastPoliceSearches := lastPoliceSearches }

/-- Visit stamping used by both evader-move paths:
`visits[k] = Array.from(new Set([...(visits[k] ?? []), nextTurn]))`. -/
def visitStamp (visits : List (Cell × List Int)) (c : Cell) (t : Int) :
    List (Cell × List Int) :=
  recordSet visits c (jsDedup (lookupVisits visits c ++ [t]))

/-- Source `endPoliceTurn`, synchronous part (lines 686-711): the guards,
the turn-cap adjudication, the pass-and-play handoff to the evader, and
the start of the evader-AI animation.  `wait` stands for the randomly
drawn member of {5, 10, 15}. -/
def endPoliceTurn (wait : Int) (s : GameState) : GameState :=
  if s.phase ≠ POLICE_TURN then s
  else if s.criminalMoving then s
  else if s.turn ≥ MAX_TURN then { s with phase := END, winner := some CRIMINAL }
  else if s.mode = PASS_PLAY then
    { s with
      phase := CRIMINAL_MOVE
      actionsLeft := ACTIONS_PER_TURN
      selectedHeli := none
      handoff := ⟨true, CRIMINAL,
        "犯人に端末を渡してください。犯人は1回だけ移動します（待機NG / 再訪NG）。"⟩ }
  else { s with phase := CRIMINAL_AI_MOVING, criminalMoving := true, moveWaitSec := wait }

/-- Source `endPoliceTurn`, delayed evader-AI move callback (lines
713-740): consults the escape planner and either adjudicates the stuck
case or applies the move.  `nextTurn` is the value `state.turn + 1`
captured when the timer was armed. -/
def criminalAiMoveStep (s : GameState) (nextTurn : Int) : GameState :=
  if s.role ≠ some POLICE then s
  else match s.criminalPos with
    | none => s
    | some p =>
      let mv := criminalAiNextMoveNoStuck p s.visits s.turn
      if mv.stuck then
        { s with phase := END, winner := some CRIMINAL, criminalMoving := false }
      else
        { s with
          turn := nextTurn
          criminalPos := some mv.next
          visits := visitStamp s.visits mv.next nextTurn
          criminalPath := s.criminalPath ++ [mv.next]
          phase := POLICE_TURN
          actionsLeft := ACTIONS_PER_TURN
          heliActed := [false, false, false]
          selectedHeli := some 0
          criminalMoving := false
          lastPoliceSearches := [] }

/-- Source `criminalMoveTo` (lines 790-836): the human evader move, legal
iff the target is an in-bounds orthogonal neighbor of the current cell
and not in the visited set. -/
def criminalMoveTo (s : GameState) (c : Cell) : GameState :=
  if s.phase ≠ CRIMINAL_MOVE then s
  else match s.criminalPos with
    | none => s
    | some p =>
      if s.mode = PASS_PLAY ∧ s.viewer ≠ CRIMINAL then s
      else if ¬ c ∈ neighborsCell p then s
      else if c ∈ s.visits.map Prod.fst then s
      else
        let nextTurn := s.turn + 1
        let visits := visitStamp s.visits c nextTurn
        if s.mode = PASS_PLAY then
          { s with
            turn := nextTurn
            criminalPos := some c
            visits := visits
            criminalPath := s.criminalPath ++ [c]
            phase := POLICE_TURN
            actionsLeft := ACTIONS_PER_TURN
            heliActed := [false, false, false]
            selectedHeli := some 0
            lastPoliceSearches := []
            handoff := ⟨true, POLICE, "警察に端末を渡してください。次の警察ターンです（3回行動）。"⟩ }
        else
          { s with
            turn := nextTurn
            criminalPos := some c
            visits := visits
            criminalPath := s.criminalPath ++ [c]
            phase := POLICE_AI_TURN
            actionsLeft := ACTIONS_PER_TURN
            heliActed := [false, false, false]
            selectedHeli := none
            lastPoliceSearches := [] }

/-- Source `runPoliceAiTurn`, closing callback after the third AI action
(lines 954-964): the turn-cap adjudication for the AI-pursuer flow. -/
def policeAiTurnEnd (s : GameState) : GameState :=
  if s.phase ≠ POLICE_AI_TURN then s
  else if s.turn ≥ MAX_TURN then
    { s with
      phase := END
      winner := some CRIMINAL
      policeAiThinking := false
      selectedHeli := none }
  else { s with phase := CRIMINAL_MOVE, policeAiThinking := false, selectedHeli := none }

/-- A concrete mid-game state used by the witness theorems: single-player
match, human pursuer, turn 1, evader hidden at (2,2). -/
def sampleState : GameState where
  mode := SINGLE
  role := some POLICE
  viewer := POLICE
  phase := POLICE_TURN
  turn := 1
  helicopters := [⟨0, 0⟩, ⟨3, 3⟩, ⟨0, 3⟩]
  selectedHeli := some 0
  actionsLeft := 3
  heliActed := [false, false, false]
  criminalPos := some ⟨2, 2⟩
  visits := [(⟨2, 2⟩, [1])]
  revealed := []
  searched := []
  criminalPath := [⟨2, 2⟩]
  lastPoliceSearches := []
  policeAiRadio := ⟨1, []⟩
  policeAiThinking := false
  criminalMoving := false
  moveWaitSec := 5
  winner := none
  handoff := ⟨false, POLICE, ""⟩

/-- A concrete state in which the AI evader is fully boxed in at (0,0):
both in-bounds neighbors (0,1) and (1,0) are already visited (the evader
walked (0,1) → (1,1) → (1,0) → (0,0) over turns 1-4). -/
def stuckState : GameState :=
  { sampleState with
    phase := CRIMINAL_AI_MOVING
    criminalMoving := true
    turn := 4
    criminalPos := some ⟨0, 0⟩
    visits := [(⟨0, 1⟩, [1]), (⟨1, 1⟩, [2]), (⟨1, 0⟩, [3]), (⟨0, 0⟩, [4])]
    criminalPath := [⟨0, 1⟩, ⟨1, 1⟩, ⟨1, 0⟩, ⟨0, 0⟩] }

/-- The 25 board cells, row-major, as iterated by the heat loops
(`for r in 0..GRID-1, for c in 0..GRID-1`). -/
def boardCells : List Cell :=
  (List.range 5).flatMap (fun r => (List.range 5).map (fun c => ⟨(r : Int), (c : Int)⟩))

/-- JS `Math.min(...v)` on a nonempty integer list (0 on empty, a case
the source guards against). -/
def listMin : List Int → Int
  | [] => 0
  | h :: t => t.foldl min h

/-- JS `Math.max(...v)` on a nonempty integer list (0 on empty, a case
the source guards against). -/
def listMax : List Int → Int
  | [] => 0
  | h :: t => t.foldl max h

/-- The evidence traces collected by `buildHeat` (lines 168-176): for
each key of the revealed record whose flag is set and whose visit record
is non-empty, the cell together with its earliest visit turn. -/
def heatTraces (visits : List (Cell × List Int)) (revealed : List (Cell × Bool)) :
    List (Cell × Int) :=
  (revealed.map Prod.fst).filterMap (fun k =>
    if lookupRevealed revealed k = false then none
    else
      let v := lookupVisits visits k
      if v.isEmpty then none
      else some (k, listMin v))

/-- Per-trace likelihood factor of `buildHeat` (lines 190-202): the hard
reachability cutoff 0.02 when the trace is too far for the elapsed
turns, otherwise the freshness-shaped exponential closeness term. -/
noncomputable def traceFactor (T maxT : Int) (p : Cell) (tr : Cell × Int) : ℝ :=
  let delta : Int := max 0 (T - tr.2)
  let d : Int := manhattanCell p tr.1
  if d > delta then 0.02
  else
    let freshness : ℝ := 1 + ((tr.2 : ℝ) / ((max 1 maxT : Int) : ℝ)) * 1.5
    let closeness : ℝ := Real.exp (-((|delta - d| : Int) : ℝ) / (1.2 / freshness))
    0.15 + 0.85 * closeness

/-- Unnormalized cell score of `buildHeat`: the product of the trace
factors, starting from 1.0. -/
noncomputable def rawScore (T maxT : Int) (traces : List (Cell × Int)) (p : Cell) : ℝ :=
  traces.foldl (fun sc tr => sc * traceFactor T maxT p tr) 1

/-- Maximum of a heat grid over the board, folded from 0 exactly as the
`mx` loops of the source do. -/
noncomputable def gridMax (h : Cell → ℝ) : ℝ :=
  (boardCells.map h).foldl max 0

/-- Source `buildHeat` (lines 165-214): uniform heat 1 when no evidence
is revealed, otherwise the per-cell product of trace factors normalized
by the grid maximum.  The grid is a function on cells; the source array
holds its values at the 25 board cells. -/
noncomputable def buildHeat (currentTurn : Int) (visits : List (Cell × List Int))
    (revealed : List (Cell × Bool)) : Cell → ℝ :=
  let traces := heatTraces visits revealed
  if traces.isEmpty then fun _ => 1
  else
    let maxT := listMax (traces.map Prod.snd)
    let raw := rawScore currentTurn maxT traces
    let mx := gridMax raw
    if mx > 0 then fun p => raw p / mx else raw

/-- Source `heatConfidence` (lines 279-283): the clamped rounded affine
image of the grid maximum. -/
noncomputable def heatConfidence (heat : Cell → ℝ) : Int :=
  let mx := gridMax heat
  max 35 (min 95 (round ((35 : ℝ) + mx * 60)))

/-- Quadrant union; the source returns the strings 北西 / 北東 / 南西 /
南東, here NW / NE / SW / SE. -/
inductive Quadrant where
  | NW
  | NE
  | SW
  | SE
deriving DecidableEq, Repr

/-- Source `quadrantOfCell`: north is row ≤ 2, west is column ≤ 2. -/
def quadrantOfCell (x : Cell) : Quadrant :=
  if x.r ≤ 2 ∧ x.c ≤ 2 then .NW
  else if x.r ≤ 2 then .NE
  else if x.c ≤ 2 then .SW
  else .SE

/-- Source `topCellsByHeat`: all board cells paired with their heat,
sorted descending by heat, first `k` kept. -/
noncomputable def topCellsByHeat (heat : Cell → ℝ) (k : Nat) : List Cell :=
  let all := boardCells.map (fun x => (x, heat x))
  let sorted := all.mergeSort (fun a b => decide (b.2 ≤ a.2))
  (sorted.take k).map Prod.fst

/-- The chatter focus emitted by `runPoliceAiTurn` (lines 889-890 and
909-910): the quadrant of the top heat cell, `quadrantOfCell(tops[0])`
with `tops = topCellsByHeat(heat, 3)`. -/
noncomputable def chatterFocus (heat : Cell → ℝ) : Quadrant :=
  quadrantOfCell (topCellsByHeat heat 3).headI

/-- Correctness of the backtracking search: it succeeds exactly when a
self-avoiding continuation of the required length exists. -/
theorem canFinishFrom_iff (k : Nat) :
    ∀ (pos : Cell) (vs : List Cell),
      canFinishFrom pos k vs = true ↔
        ∃ l : List Cell, l.length = k ∧ validStepsB pos vs l = true := by
  induction k with
  | zero =>
    intro pos vs
    simp only [canFinishFrom]
    constructor
    · intro _
      exact ⟨[], rfl, rfl⟩
    · intro _
      trivial
  | succ k ih =>
    intro pos vs
    simp only [canFinishFrom]
    rw [List.any_eq_true]
    constructor
    · rintro ⟨n, hn, hfin⟩
      rw [List.mem_mergeSort, List.mem_filter] at hn
      obtain ⟨hmem, hnv⟩ := hn
      obtain ⟨l, hlen, hval⟩ := (ih n (n :: vs)).mp hfin
      refine ⟨n :: l, by simp [hlen], ?_⟩
      simp only [validStepsB, Bool.and_eq_true]
      exact ⟨⟨by simpa using hmem, hnv⟩, hval⟩
    · rintro ⟨l, hlen, hval⟩
      match l with
      | [] => simp at hlen
      | x :: rest =>
        simp only [validStepsB, Bool.and_eq_true] at hval
        obtain ⟨⟨hmem, hnv⟩, hval⟩ := hval
        refine ⟨x, ?_, ?_⟩
        · rw [List.mem_mergeSort, List.mem_filter]
          exact ⟨by simpa using hmem, hnv⟩
        · exact (ih x (x :: vs)).mpr ⟨rest, by simpa using hlen, hval⟩

/-- Helper: the head (via `headI`) of a nonempty list is a member. -/
theorem headI_mem_of_ne_nil {α : Type} [Inhabited α] {l : List α} (h : l ≠ []) :
    l.headI ∈ l := by
  match l with
  | [] => exact absurd rfl h
  | x :: t => exact List.mem_cons_self x t

/-- C2 (Planner safety): whenever a full-length self-avoiding escape path
exists from the current cell, the planner is not stuck, and the move it
returns heads some full-length self-avoiding escape path. -/
theorem criminalAi_planner_safety (current : Cell) (visits : List (Cell × List Int))
    (turn : Int) (hturn1 : 1 ≤ turn) (hturn2 : turn ≤ 10)
    (hpath : ∃ l : List Cell, l.length = (MAX_TURN - turn).toNat ∧
      validStepsB current (visits.map Prod.fst) l = true) :
    (criminalAiNextMoveNoStuck current visits turn).stuck = false ∧
      ∃ l : List Cell, l.length = (MAX_TURN - turn).toNat ∧
        validStepsB current (visits.map Prod.fst) l = true ∧
        l.head? = some (criminalAiNextMoveNoStuck current visits turn).next := by
  have hrm : 1 ≤ (MAX_TURN - turn).toNat := by
    have : (1 : Int) ≤ MAX_TURN - turn := by
      simp only [MAX_TURN]; omega
    omega
  obtain ⟨l, hlen, hval⟩ := hpath
  rcases l with _ | ⟨x, rest⟩
  · exfalso
    simp only [List.length_nil] at hlen
    omega
  · simp only [validStepsB, Bool.and_eq_true] at hval
    obtain ⟨⟨hxmem, hxnv⟩, hxval⟩ := hval
    -- the first step of the witness path is a candidate
    have hxcand : x ∈ (neighborsCell current).filter
        (fun n => !decide (n ∈ visits.map Prod.fst)) := by
      rw [List.mem_filter]
      exact ⟨by simpa using hxmem, hxnv⟩
    have hne : ((neighborsCell current).filter
        (fun n => !decide (n ∈ visits.map Prod.fst))).isEmpty = false := by
      rw [List.isEmpty_eq_false_iff_exists_mem]
      exact ⟨x, hxcand⟩
    -- x is a safe move: the tail of the witness path certifies canFinishFrom
    have hxsafe : canFinishFrom x ((MAX_TURN - turn).toNat - 1)
        (x :: visits.map Prod.fst) = true := by
      rw [canFinishFrom_iff]
      refine ⟨rest, ?_, hxval⟩
      have := List.length_cons x rest ▸ hlen
      omega
    have hsafene : (((neighborsCell current).filter
        (fun n => !decide (n ∈ visits.map Prod.fst))).filter
          (fun cand => canFinishFrom cand ((MAX_TURN - turn).toNat - 1)
            (cand :: visits.map Prod.fst))).isEmpty = false := by
      rw [List.isEmpty_eq_false_iff_exists_mem]
      exact ⟨x, by rw [List.mem_filter]; exact ⟨hxcand, hxsafe⟩⟩
    -- evaluate the planner on the nonempty-candidate branch
    have hres : criminalAiNextMoveNoStuck current visits turn =
        ⟨((((neighborsCell current).filter
          (fun n => !decide (n ∈ visits.map Prod.fst))).filter
            (fun cand => canFinishFrom cand ((MAX_TURN - turn).toNat - 1)
              (cand :: visits.map Prod.fst))).mergeSort
          (fun a b => moveScore (visits.map Prod.fst) b ≤ moveScore (visits.map Prod.fst) a)).headI,
          false⟩ := by
      simp only [criminalAiNextMoveNoStuck, hne, hsafene, Bool.false_eq_true, if_false]
    refine ⟨by rw [hres], ?_⟩
    -- the returned move is itself a safe candidate
    set nextc := (criminalAiNextMoveNoStuck current visits turn).next with hnextc
    have hsortne : (((((neighborsCell current).filter
        (fun n => !decide (n ∈ visits.map Prod.fst))).filter
          (fun cand => canFinishFrom cand ((MAX_TURN - turn).toNat - 1)
            (cand :: visits.map Prod.fst))).mergeSort
        (fun a b => moveScore (visits.map Prod.fst) b ≤ moveScore (visits.map Prod.fst) a))) ≠ [] := by
      intro hnil
      have := (hnil ▸ (List.mergeSort_perm _ _)).symm.length_eq
      simp only [List.length_nil] at this
      rw [← List.isEmpty_iff_length_eq_zero] at this
      rw [this] at hsafene
      simp at hsafene
    have hmem0 : nextc ∈ ((((neighborsCell current).filter
        (fun n => !decide (n ∈ visits.map Prod.fst))).filter
          (fun cand => canFinishFrom cand ((MAX_TURN - turn).toNat - 1)
            (cand :: visits.map Prod.fst))).mergeSort
        (fun a b => moveScore (visits.map Prod.fst) b ≤ moveScore (visits.map Prod.fst) a)) := by
      rw [hnextc, hres]
      exact headI_mem_of_ne_nil hsortne
    have hmem : nextc ∈ (((neighborsCell current).filter
        (fun n => !decide (n ∈ visits.map Prod.fst))).filter
          (fun cand => canFinishFrom cand ((MAX_TURN - turn).toNat - 1)
            (cand :: visits.map Prod.fst))) := List.mem_mergeSort.mp hmem0
    rw [List.mem_filter, List.mem_filter] at hmem
    obtain ⟨⟨hnmem, hnnv⟩, hnsafe⟩ := hmem
    obtain ⟨rest2, hlen2, hval2⟩ := (canFinishFrom_iff _ _ _).mp hnsafe
    refine ⟨nextc :: rest2, ?_, ?_, rfl⟩
    · simp only [List.length_cons, hlen2]
      omega
    · simp only [validStepsB, Bool.and_eq_true]
      exact ⟨⟨by simpa using hnmem, hnnv⟩, hval2⟩

/-- Witness for the planner-safety theorem at a concrete input: on turn 10
at cell (0,0) with only (0,0) visited, the single-step path [(0,1)]
exists, so the planner is not stuck and returns a safe first step. -/
theorem criminalAi_planner_safety_witness :
    (criminalAiNextMoveNoStuck ⟨0, 0⟩ [(⟨0, 0⟩, [1])] 10).stuck = false ∧
      ∃ l : List Cell, l.length = (MAX_TURN - 10).toNat ∧
        validStepsB ⟨0, 0⟩ ([(⟨0, 0⟩, [1])].map Prod.fst) l = true ∧
        l.head? = some (criminalAiNextMoveNoStuck ⟨0, 0⟩ [(⟨0, 0⟩, [1])] 10).next :=
  criminalAi_planner_safety ⟨0, 0⟩ [(⟨0, 0⟩, [1])] 10 (by decide) (by decide)
    ⟨[⟨0, 1⟩], by decide, by decide⟩

/-- C3 counterexample: at `stuckState` the evader has no legal move at
all, yet the engine adjudicates Winner = CRIMINAL (the evader), not
Winner = POLICE (the pursuer) as the claim states. -/
theorem evaderBoxedIn_counterexample :
    (∀ n ∈ neighborsCell ⟨0, 0⟩, n ∈ stuckState.visits.map Prod.fst) ∧
      stuckState.role = some POLICE ∧
      stuckState.criminalPos = some ⟨0, 0⟩ ∧
      (criminalAiMoveStep stuckState 5).winner = some CRIMINAL ∧
      (criminalAiMoveStep stuckState 5).winner ≠ some POLICE := by
  decide

/-- C3 amended: whenever the AI-controlled evader has no legal move at
all when its turn begins, the engine adjudicates Winner = CRIMINAL (the
evader is credited) and the phase moves to End. -/
theorem evaderBoxedIn_winner_evader (s : GameState) (nextTurn : Int) (p : Cell)
    (hrole : s.role = some POLICE) (hpos : s.criminalPos = some p)
    (hboxed : ∀ n ∈ neighborsCell p, n ∈ s.visits.map Prod.fst) :
    (criminalAiMoveStep s nextTurn).winner = some CRIMINAL ∧
      (criminalAiMoveStep s nextTurn).phase = END := by
  have hstuck : criminalAiNextMoveNoStuck p s.visits s.turn = ⟨p, true⟩ := by
    have hnil : (neighborsCell p).filter
        (fun n => !decide (n ∈ s.visits.map Prod.fst)) = [] := by
      rw [List.filter_eq_nil_iff]
      intro a ha
      simp only [Bool.not_eq_true', decide_eq_false_iff_not, not_not]
      exact hboxed a ha
    simp [criminalAiNextMoveNoStuck, hnil]
  simp [criminalAiMoveStep, hrole, hpos, hstuck]

/-- Witness for the amended C3 theorem at the concrete boxed-in state. -/
theorem evaderBoxedIn_winner_evader_witness :
    (criminalAiMoveStep stuckState 5).winner = some CRIMINAL ∧
      (criminalAiMoveStep stuckState 5).phase = END :=
  evaderBoxedIn_winner_evader stuckState 5 ⟨0, 0⟩ (by decide) (by decide) (by decide)

/-- C4 (Survival correctness): ending a pursuer turn with the turn
counter at the cap adjudicates Winner = CRIMINAL (the evader) and ends
the match, both for the human-pursuer flow (`endPoliceTurn`) and for the
AI-pursuer flow (`runPoliceAiTurn`'s closing callback); an arrest during
the turn would already have left the pursuer-turn phase. -/
theorem survival_winner_evader (wait : Int) (s : GameState)
    (hcap : s.turn ≥ MAX_TURN) :
    (s.phase = POLICE_TURN → s.criminalMoving = false →
      (endPoliceTurn wait s).winner = some CRIMINAL ∧
        (endPoliceTurn wait s).phase = END) ∧
    (s.phase = POLICE_AI_TURN →
      (policeAiTurnEnd s).winner = some CRIMINAL ∧
        (policeAiTurnEnd s).phase = END) := by
  constructor
  · intro hphase hmov
    simp [endPoliceTurn, hphase, hmov, hcap]
  · intro hphase
    simp [policeAiTurnEnd, hphase, hcap]

/-- Witness for C4 at a concrete turn-11 state. -/
theorem survival_winner_evader_witness :
    (endPoliceTurn 5 { sampleState with turn := 11 }).winner = some CRIMINAL ∧
      (endPoliceTurn 5 { sampleState with turn := 11 }).phase = END :=
  (survival_winner_evader 5 { sampleState with turn := 11 } (by decide)).1 rfl rfl

/-- Helper: looking up a key absent from a record yields the default. -/
theorem recLookup_not_key {β : Type} (l : List (Cell × β)) (c : Cell) (d : β)
    (h : ¬ c ∈ l.map Prod.fst) : recLookup l c d = d := by
  have : l.find? (fun p => p.1 = c) = none := by
    rw [List.find?_eq_none]
    intro x hx
    simp only [decide_eq_true_eq]
    intro hxc
    exact h (List.mem_map.mpr ⟨x, hx, hxc⟩)
  simp [recLookup, this]

/-- Helper: assigning an absent key appends the binding. -/
theorem recordSet_not_key {β : Type} (l : List (Cell × β)) (c : Cell) (v : β)
    (h : ¬ c ∈ l.map Prod.fst) : recordSet l c v = l ++ [(c, v)] := by
  have : l.any (fun p => p.1 = c) = false := by
    rw [List.any_eq_false]
    intro x hx
    simp only [decide_eq_true_eq]
    intro hxc
    exact h (List.mem_map.mpr ⟨x, hx, hxc⟩)
  simp [recordSet, this]

/-- Helper: looking up a key just appended to a record in which it was
absent yields the appended value. -/
theorem recLookup_append_self {β : Type} (l : List (Cell × β)) (c : Cell) (v d : β)
    (h : ¬ c ∈ l.map Prod.fst) : recLookup (l ++ [(c, v)]) c d = v := by
  have hnone : l.find? (fun p => p.1 = c) = none := by
    rw [List.find?_eq_none]
    intro x hx
    simp only [decide_eq_true_eq]
    intro hxc
    exact h (List.mem_map.mpr ⟨x, hx, hxc⟩)
  simp [recLookup, List.find?_append, hnone]

/-- Helper: stamping a turn onto an unvisited cell records exactly that
turn for the cell. -/
theorem visitStamp_not_key (visits : List (Cell × List Int)) (c : Cell) (t : Int)
    (h : ¬ c ∈ visits.map Prod.fst) :
    lookupVisits (visitStamp visits c t) c = [t] := by
  have hlook : lookupVisits visits c = [] := recLookup_not_key visits c [] h
  have hded : jsDedup (lookupVisits visits c ++ [t]) = [t] := by
    rw [hlook]
    simp [jsDedup]
  rw [visitStamp, hded, recordSet_not_key _ _ _ h]
  exact recLookup_append_self visits c [t] [] h

/-- C5 (Evader move legality and effects): in the evader-move phase a
move to `c` succeeds exactly when `c` is cell-adjacent to the evader and
unvisited; on success the turn counter increments by one, the visit
history at `c` records the new turn, the budget resets to 3, all acted
flags clear and play returns to a pursuer-turn phase; otherwise the call
is a no-op. -/
theorem evaderMove_legality (s : GameState) (p c : Cell)
    (hphase : s.phase = CRIMINAL_MOVE) (hpos : s.criminalPos = some p)
    (hview : ¬ (s.mode = PASS_PLAY ∧ s.viewer ≠ CRIMINAL)) :
    (c ∈ neighborsCell p ∧ ¬ c ∈ s.visits.map Prod.fst →
      (criminalMoveTo s c).turn = s.turn + 1 ∧
      lookupVisits (criminalMoveTo s c).visits c = [s.turn + 1] ∧
      (criminalMoveTo s c).actionsLeft = ACTIONS_PER_TURN ∧
      (criminalMoveTo s c).heliActed = [false, false, false] ∧
      (criminalMoveTo s c).criminalPos = some c ∧
      ((criminalMoveTo s c).phase = POLICE_TURN ∨
        (criminalMoveTo s c).phase = POLICE_AI_TURN)) ∧
    (¬ (c ∈ neighborsCell p ∧ ¬ c ∈ s.visits.map Prod.fst) →
      criminalMoveTo s c = s) ∧
    ((criminalMoveTo s c).turn = s.turn + 1 ↔
      c ∈ neighborsCell p ∧ ¬ c ∈ s.visits.map Prod.fst) := by
  by_cases hn : c ∈ neighborsCell p
  · by_cases hv : c ∈ s.visits.map Prod.fst
    · refine ⟨by tauto, ?_, ?_⟩
      · intro _
        simp [criminalMoveTo, hphase, hpos, hview, hn, hv]
      · have hid : criminalMoveTo s c = s := by
          simp [criminalMoveTo, hphase, hpos, hview, hn, hv]
        rw [hid]
        constructor
        · intro habs
          omega
        · tauto
    · have hmove : (criminalMoveTo s c).turn = s.turn + 1 ∧
          lookupVisits (criminalMoveTo s c).visits c = [s.turn + 1] ∧
          (criminalMoveTo s c).actionsLeft = ACTIONS_PER_TURN ∧
          (criminalMoveTo s c).heliActed = [false, false, false] ∧
          (criminalMoveTo s c).criminalPos = some c ∧
          ((criminalMoveTo s c).phase = POLICE_TURN ∨
            (criminalMoveTo s c).phase = POLICE_AI_TURN) := by
        by_cases hm : s.mode = PASS_PLAY
        · have hcv : s.viewer = CRIMINAL := by
            by_contra hcontra
            exact hview ⟨hm, hcontra⟩
          simp only [criminalMoveTo, hphase, hpos, hview, hn, hv, hm]
          simp [visitStamp_not_key s.visits c (s.turn + 1) hv, hcv]
        · simp only [criminalMoveTo, hphase, hpos, hview, hn, hv, hm]
          simp [visitStamp_not_key s.visits c (s.turn + 1) hv, hm]
      refine ⟨fun _ => hmove, by tauto, ?_⟩
      constructor
      · intro _
        exact ⟨hn, hv⟩
      · intro _
        exact hmove.1
  · have hid : criminalMoveTo s c = s := by
      simp [criminalMoveTo, hphase, hpos, hview, hn]
    refine ⟨by tauto, fun _ => hid, ?_⟩
    rw [hid]
    constructor
    · intro habs
      omega
    · tauto

/-- Witness for C5: from `sampleState` moved into the evader phase, the
evader at (2,2) legally moves to the unvisited neighbor (2,3). -/
theorem evaderMove_legality_witness :
    ((⟨2, 3⟩ : Cell) ∈ neighborsCell ⟨2, 2⟩ ∧
      ¬ (⟨2, 3⟩ : Cell) ∈ ({ sampleState with phase := CRIMINAL_MOVE } :
        GameState).visits.map Prod.fst) ∧
    (criminalMoveTo { sampleState with phase := CRIMINAL_MOVE } ⟨2, 3⟩).turn =
      ({ sampleState with phase := CRIMINAL_MOVE } : GameState).turn + 1 :=
  have h := evaderMove_legality { sampleState with phase := CRIMINAL_MOVE } ⟨2, 2⟩ ⟨2, 3⟩
    (by decide) (by decide) (by decide)
  ⟨⟨by decide, by decide⟩, (h.1 ⟨by decide, by decide⟩).1⟩

/-- Characterization of `currentHeliCanAct` when the ambient guards
(phase, selection, no animation, viewer gating) hold: the unit can act
exactly when budget remains and its acted flag is clear. -/
theorem currentHeliCanAct_char (s : GameState) (i : Nat)
    (hphase : s.phase = POLICE_TURN) (hsel : s.selectedHeli = some i)
    (hmov : s.criminalMoving = false)
    (hview : ¬ (s.mode = PASS_PLAY ∧ s.viewer ≠ POLICE)) :
    currentHeliCanAct s = true ↔
      0 < s.actionsLeft ∧ s.heliActed.getD i false = false := by
  constructor
  · intro h
    by_cases hle : s.actionsLeft ≤ 0
    · simp [currentHeliCanAct, hphase, hsel, hmov, hview, hle] at h
    · refine ⟨by omega, ?_⟩
      simp [currentHeliCanAct, hphase, hsel, hmov, hview, hle] at h
      rw [List.getD_eq_getElem?_getD]
      exact h
  · rintro ⟨h1, h2⟩
    have hle : ¬ s.actionsLeft ≤ 0 := by omega
    have h2x : s.heliActed[i]?.getD false = false := by
      rw [← List.getD_eq_getElem?_getD]
      exact h2
    simp [currentHeliCanAct, hphase, hsel, hmov, hview, hle, h2x]

/-- C6 (Unit-move legality and silent rejection): in the pursuer-turn
phase a unit move succeeds exactly when the target node is adjacent,
unoccupied by another unit, the unit has not acted and budget remains;
on success the budget drops by exactly one and the acted flag is set;
on any failed condition the call leaves the whole state unchanged. -/
theorem moveUnit_legality (s : GameState) (i : Nat) (tgt : Node)
    (hphase : s.phase = POLICE_TURN) (hsel : s.selectedHeli = some i)
    (hmov : s.criminalMoving = false)
    (hview : ¬ (s.mode = PASS_PLAY ∧ s.viewer ≠ POLICE))
    (hilen : i < s.heliActed.length) :
    ((tgt ∈ neighborsNode (s.helicopters.getD i default) ∧
        ¬ tgt ∈ s.helicopters.filter (fun h => h ≠ s.helicopters.getD i default) ∧
        s.heliActed.getD i false = false ∧ 0 < s.actionsLeft) →
      (moveHeliPlayer s tgt).actionsLeft = s.actionsLeft - 1 ∧
        (moveHeliPlayer s tgt).heliActed.getD i false = true ∧
        (moveHeliPlayer s tgt).helicopters = s.helicopters.set i tgt) ∧
    (¬ (tgt ∈ neighborsNode (s.helicopters.getD i default) ∧
        ¬ tgt ∈ s.helicopters.filter (fun h => h ≠ s.helicopters.getD i default) ∧
        s.heliActed.getD i false = false ∧ 0 < s.actionsLeft) →
      moveHeliPlayer s tgt = s) ∧
    (moveHeliPlayer s tgt ≠ s ↔
      (tgt ∈ neighborsNode (s.helicopters.getD i default) ∧
        ¬ tgt ∈ s.helicopters.filter (fun h => h ≠ s.helicopters.getD i default) ∧
        s.heliActed.getD i false = false ∧ 0 < s.actionsLeft)) := by
  have hchar := currentHeliCanAct_char s i hphase hsel hmov hview
  have hgd : s.helicopters.getD i default = s.helicopters[i]?.getD default :=
    List.getD_eq_getElem?_getD s.helicopters i default
  by_cases hlegal : tgt ∈ neighborsNode (s.helicopters.getD i default) ∧
      ¬ tgt ∈ s.helicopters.filter (fun h => h ≠ s.helicopters.getD i default) ∧
      s.heliActed.getD i false = false ∧ 0 < s.actionsLeft
  · obtain ⟨hadj, hocc, hact, hbud⟩ := hlegal
    have hcan : currentHeliCanAct s = true := hchar.mpr ⟨hbud, hact⟩
    have hoccQ : ¬ (tgt ∈ s.helicopters ∧ ¬ tgt = s.helicopters[i]?.getD default) := by
      rw [← hgd]
      rintro ⟨hm, hne⟩
      exact hocc (List.mem_filter.mpr ⟨hm, decide_eq_true hne⟩)
    have hadjQ : tgt ∈ neighborsNode (s.helicopters[i]?.getD default) := by
      rw [← hgd]
      exact hadj
    have hmove : moveHeliPlayer s tgt =
        { s with
          helicopters := s.helicopters.set i tgt
          heliActed := s.heliActed.set i true
          actionsLeft := s.actionsLeft - 1 } := by
      simp [moveHeliPlayer, hphase, hsel, hcan, hoccQ, hadjQ]
    have heff : (moveHeliPlayer s tgt).actionsLeft = s.actionsLeft - 1 ∧
        (moveHeliPlayer s tgt).heliActed.getD i false = true ∧
        (moveHeliPlayer s tgt).helicopters = s.helicopters.set i tgt := by
      rw [hmove]
      refine ⟨rfl, ?_, rfl⟩
      show (s.heliActed.set i true).getD i false = true
      rw [List.getD_eq_getElem?_getD]
      rw [List.getElem?_set_self]
      · simp
      · omega
    refine ⟨fun _ => heff, by tauto, ?_⟩
    constructor
    · intro _
      exact ⟨hadj, hocc, hact, hbud⟩
    · intro _ heq
      have h2 := congrArg GameState.actionsLeft heq
      rw [hmove] at h2
      simp at h2
  · have hid : moveHeliPlayer s tgt = s := by
      by_cases hcan2 : currentHeliCanAct s = true
      · obtain ⟨hbud, hact⟩ := hchar.mp hcan2
        by_cases hocc : tgt ∈ s.helicopters.filter (fun h => h ≠ s.helicopters.getD i default)
        · have hoccQ : tgt ∈ s.helicopters ∧ ¬ tgt = s.helicopters[i]?.getD default := by
            rw [← hgd]
            have := List.mem_filter.mp hocc
            exact ⟨this.1, of_decide_eq_true this.2⟩
          simp [moveHeliPlayer, hphase, hsel, hcan2, hoccQ]
        · have hnadj : ¬ tgt ∈ neighborsNode (s.helicopters.getD i default) := by tauto
          have hoccQ : ¬ (tgt ∈ s.helicopters ∧ ¬ tgt = s.helicopters[i]?.getD default) := by
            rw [← hgd]
            rintro ⟨hm, hne⟩
            exact hocc (List.mem_filter.mpr ⟨hm, decide_eq_true hne⟩)
          have hnadjQ : ¬ tgt ∈ neighborsNode (s.helicopters[i]?.getD default) := by
            rw [← hgd]
            exact hnadj
          simp [moveHeliPlayer, hphase, hsel, hcan2, hoccQ, hnadjQ]
      · have hcan3 : currentHeliCanAct s = false := by
          cases hc : currentHeliCanAct s
          · rfl
          · exact absurd hc hcan2
        simp [moveHeliPlayer, hphase, hsel, hcan3]
    refine ⟨by tauto, fun _ => hid, ?_⟩
    rw [hid]
    constructor
    · intro h
      exact absurd rfl h
    · intro h
      exact absurd h hlegal

/-- Witness for C6: in `sampleState` unit 0 at node (0,0) legally moves
to the adjacent unoccupied node (0,1), spending one action. -/
theorem moveUnit_legality_witness :
    (moveHeliPlayer sampleState ⟨0, 1⟩).actionsLeft = sampleState.actionsLeft - 1 ∧
      (moveHeliPlayer sampleState ⟨0, 1⟩).heliActed.getD 0 false = true ∧
      (moveHeliPlayer sampleState ⟨0, 1⟩).helicopters =
        sampleState.helicopters.set 0 ⟨0, 1⟩ :=
  (moveUnit_legality sampleState 0 ⟨0, 1⟩ (by decide) (by decide) (by decide)
    (by decide) (by decide)).1 (by decide)

/-- C1 (Arrest correctness): a legal search in the pursuer-turn phase
adjudicates Winner = POLICE and phase End exactly when the target is the
secret evader cell, regardless of what was previously revealed; on an
arrest neither the action budget nor the turn counter changes. -/
theorem searchCell_arrest (s : GameState) (i : Nat) (target p : Cell)
    (hphase : s.phase = POLICE_TURN) (hsel : s.selectedHeli = some i)
    (hcan : currentHeliCanAct s = true)
    (hcand : target ∈ surroundingCells (s.helicopters.getD i default))
    (hpos : s.criminalPos = some p) :
    (((searchCellPlayer true s target).winner = some POLICE ∧
      (searchCellPlayer true s target).phase = END) ↔ target = p) ∧
    (target = p →
      (searchCellPlayer true s target).actionsLeft = s.actionsLeft ∧
        (searchCellPlayer true s target).turn = s.turn) := by
  have hgd : s.helicopters.getD i default = s.helicopters[i]?.getD default :=
    List.getD_eq_getElem?_getD s.helicopters i default
  have hcandQ : target ∈ surroundingCells (s.helicopters[i]?.getD default) := by
    rw [← hgd]
    exact hcand
  by_cases ht : target = p
  · have hcond : s.criminalPos = some target := by
      rw [hpos, ht]
    have hres : searchCellPlayer true s target =
        { s with
          phase := END
          winner := some POLICE
          searched := recordSet s.searched target true
          lastPoliceSearches :=
            takeLast (s.lastPoliceSearches ++ [⟨s.turn, target, i⟩]) 3 } := by
      simp [searchCellPlayer, hphase, hsel, hcan, hcandQ, hcond]
    refine ⟨?_, ?_⟩
    · constructor
      · intro _
        exact ht
      · intro _
        rw [hres]
        exact ⟨rfl, rfl⟩
    · intro _
      rw [hres]
      exact ⟨rfl, rfl⟩
  · have hcond : ¬ s.criminalPos = some target := by
      rw [hpos]
      simp only [Option.some.injEq]
      intro h
      exact ht h.symm
    have hph : (searchCellPlayer true s target).phase = POLICE_TURN := by
      simp [searchCellPlayer, hphase, hsel, hcan, hcandQ, hcond]
    refine ⟨?_, fun habs => absurd habs ht⟩
    constructor
    · rintro ⟨hw, hend⟩
      rw [hph] at hend
      exact absurd hend (by simp)
    · intro habs
      exact absurd habs ht

/-- Witness for C1 at a concrete arrest: unit 0 hovers at node (2,2) and
searches (2,2), where the evader hides. -/
theorem searchCell_arrest_witness :
    (((searchCellPlayer true
        { sampleState with helicopters := [⟨2, 2⟩, ⟨3, 3⟩, ⟨0, 3⟩] } ⟨2, 2⟩).winner =
          some POLICE ∧
      (searchCellPlayer true
        { sampleState with helicopters := [⟨2, 2⟩, ⟨3, 3⟩, ⟨0, 3⟩] } ⟨2, 2⟩).phase =
          END) ↔ (⟨2, 2⟩ : Cell) = ⟨2, 2⟩) ∧
    ((⟨2, 2⟩ : Cell) = ⟨2, 2⟩ →
      (searchCellPlayer true
        { sampleState with helicopters := [⟨2, 2⟩, ⟨3, 3⟩, ⟨0, 3⟩] } ⟨2, 2⟩).actionsLeft =
        ({ sampleState with helicopters := [⟨2, 2⟩, ⟨3, 3⟩, ⟨0, 3⟩] } : GameState).actionsLeft ∧
      (searchCellPlayer true
        { sampleState with helicopters := [⟨2, 2⟩, ⟨3, 3⟩, ⟨0, 3⟩] } ⟨2, 2⟩).turn =
        ({ sampleState with helicopters := [⟨2, 2⟩, ⟨3, 3⟩, ⟨0, 3⟩] } : GameState).turn) :=
  searchCell_arrest { sampleState with helicopters := [⟨2, 2⟩, ⟨3, 3⟩, ⟨0, 3⟩] } 0
    ⟨2, 2⟩ ⟨2, 2⟩ (by decide) (by decide) (by decide) (by decide) (by decide)

/-- Helper: a fold of `max` never goes below its initial value. -/
theorem le_foldl_max {α : Type} [LinearOrder α] :
    ∀ (l : List α) (a : α), a ≤ l.foldl max a := by
  intro l
  induction l with
  | nil => intro a; exact le_refl a
  | cons x t ih =>
    intro a
    exact le_trans (le_max_left a x) (ih (max a x))

/-- Helper: a fold of `max` dominates every list element. -/
theorem mem_le_foldl_max {α : Type} [LinearOrder α] :
    ∀ (l : List α) (a x : α), x ∈ l → x ≤ l.foldl max a := by
  intro l
  induction l with
  | nil =>
    intro a x hx
    cases hx
  | cons y t ih =>
    intro a x hx
    rcases List.mem_cons.mp hx with h1 | h2
    · subst h1
      exact le_trans (le_max_right a x) (le_foldl_max t (max a x))
    · exact ih (max a y) x h2

/-- Helper: a fold of `max` stays below any common upper bound. -/
theorem foldl_max_le {α : Type} [LinearOrder α] :
    ∀ (l : List α) (a b : α), a ≤ b → (∀ x ∈ l, x ≤ b) → l.foldl max a ≤ b := by
  intro l
  induction l with
  | nil =>
    intro a b hab _
    exact hab
  | cons y t ih =>
    intro a b hab hall
    exact ih (max a y) b (max_le hab (hall y (List.mem_cons_self y t)))
      (fun x hx => hall x (List.mem_cons_of_mem y hx))

/-- Helper: a fold of `max` is the initial value or an element. -/
theorem foldl_max_eq_or_mem {α : Type} [LinearOrder α] :
    ∀ (l : List α) (a : α), l.foldl max a = a ∨ l.foldl max a ∈ l := by
  intro l
  induction l with
  | nil =>
    intro a
    exact Or.inl rfl
  | cons y t ih =>
    intro a
    rcases ih (max a y) with h | h
    · rcases le_total y a with hy | hy
      · left
        rw [List.foldl_cons, h, max_eq_left hy]
      · right
        rw [List.foldl_cons, h, max_eq_right hy]
        exact List.mem_cons_self y t
    · right
      rw [List.foldl_cons]
      exact List.mem_cons_of_mem y h

/-- Helper: every per-trace factor of the heat model is positive. -/
theorem traceFactor_pos (T maxT : Int) (p : Cell) (tr : Cell × Int) :
    0 < traceFactor T maxT p tr := by
  unfold traceFactor
  dsimp only
  split
  · norm_num
  · positivity

/-- Helper: the unnormalized cell score is positive. -/
theorem rawScore_pos (T maxT : Int) (traces : List (Cell × Int)) (p : Cell) :
    0 < rawScore T maxT traces p := by
  unfold rawScore
  have hstep : ∀ (l : List (Cell × Int)) (init : ℝ), 0 < init →
      0 < l.foldl (fun sc tr => sc * traceFactor T maxT p tr) init := by
    intro l
    induction l with
    | nil =>
      intro init hinit
      exact hinit
    | cons tr t ih =>
      intro init hinit
      exact ih (init * traceFactor T maxT p tr) (mul_pos hinit (traceFactor_pos T maxT p tr))
  exact hstep traces 1 one_pos

/-- Helper: the heat grid of `buildHeat` always has maximum exactly 1 —
uniform 1 without evidence, normalized by the (positive) maximum with
evidence. -/
theorem gridMax_buildHeat (t : Int) (visits : List (Cell × List Int))
    (revealed : List (Cell × Bool)) :
    gridMax (buildHeat t visits revealed) = 1 := by
  by_cases htr : (heatTraces visits revealed).isEmpty
  · have hbh : buildHeat t visits revealed = fun _ => 1 := by
      simp [buildHeat, htr]
    rw [hbh]
    apply le_antisymm
    · apply foldl_max_le
      · norm_num
      · intro x hx
        rcases List.mem_map.mp hx with ⟨c, _, hc⟩
        rw [← hc]
    · exact mem_le_foldl_max _ 0 1 (List.mem_map.mpr ⟨⟨0, 0⟩, by decide, rfl⟩)
  · have hmxpos : 0 < gridMax (rawScore t
        (listMax ((heatTraces visits revealed).map Prod.snd)) (heatTraces visits revealed)) := by
      apply lt_of_lt_of_le (rawScore_pos _ _ _ ⟨0, 0⟩)
      exact mem_le_foldl_max _ 0 _ (List.mem_map.mpr ⟨⟨0, 0⟩, by decide, rfl⟩)
    have hbh : buildHeat t visits revealed = fun p =>
        rawScore t (listMax ((heatTraces visits revealed).map Prod.snd))
            (heatTraces visits revealed) p /
          gridMax (rawScore t (listMax ((heatTraces visits revealed).map Prod.snd))
            (heatTraces visits revealed)) := by
      simp only [buildHeat, htr, Bool.false_eq_true, if_false, hmxpos, if_pos]
    rw [hbh]
    set raw := rawScore t (listMax ((heatTraces visits revealed).map Prod.snd))
      (heatTraces visits revealed) with hraw
    apply le_antisymm
    · apply foldl_max_le
      · norm_num
      · intro x hx
        rcases List.mem_map.mp hx with ⟨c, hcmem, hc⟩
        rw [← hc]
        rw [div_le_one hmxpos]
        exact mem_le_foldl_max _ 0 _ (List.mem_map.mpr ⟨c, hcmem, rfl⟩)
    · rcases foldl_max_eq_or_mem (boardCells.map raw) 0 with h | h
      · exfalso
        have : gridMax raw = 0 := h
        rw [this] at hmxpos
        exact lt_irrefl 0 hmxpos
      · rcases List.mem_map.mp h with ⟨c0, hc0mem, hc0⟩
        have hone : (1 : ℝ) ∈ boardCells.map (fun p => raw p / gridMax raw) := by
          apply List.mem_map.mpr
          refine ⟨c0, hc0mem, ?_⟩
          have : raw c0 = gridMax raw := hc0
          rw [this]
          exact div_self (ne_of_gt hmxpos)
        exact mem_le_foldl_max _ 0 1 hone

/-- Helper: a heat grid of maximum 1 yields the constant confidence 95:
round(35 + 60) clamped into [35, 95] is 95. -/
theorem heatConfidence_of_gridMax_one (h : Cell → ℝ) (hmx : gridMax h = 1) :
    heatConfidence h = 95 := by
  unfold heatConfidence
  rw [hmx]
  dsimp only
  have h95 : (35 : ℝ) + 1 * 60 = ((95 : ℤ) : ℝ) := by norm_num
  rw [h95, round_intCast]
  norm_num

/-- Helper: a true revealed flag can only come from an actual key of the
revealed record. -/
theorem lookupRevealed_mem_keys (revealed : List (Cell × Bool)) (k : Cell)
    (h : lookupRevealed revealed k = true) : k ∈ revealed.map Prod.fst := by
  unfold lookupRevealed recLookup at h
  cases hfind : revealed.find? (fun p => p.1 = k) with
  | none =>
    rw [hfind] at h
    exact absurd h (by simp)
  | some q =>
    have hq := List.find?_some hfind
    have hqm := List.mem_of_find?_eq_some hfind
    simp only [decide_eq_true_eq] at hq
    exact List.mem_map.mpr ⟨q, hqm, hq⟩

/-- Helper: the trace list is non-empty exactly when some revealed cell
carries a non-empty visit record. -/
theorem heatTraces_ne_nil_iff (visits : List (Cell × List Int))
    (revealed : List (Cell × Bool)) :
    heatTraces visits revealed ≠ [] ↔
      ∃ k, lookupRevealed revealed k = true ∧ lookupVisits visits k ≠ [] := by
  constructor
  · intro hne
    rcases List.exists_mem_of_ne_nil _ hne with ⟨tr, htr⟩
    unfold heatTraces at htr
    rcases List.mem_filterMap.mp htr with ⟨k, _, hfk⟩
    by_cases hrev : lookupRevealed revealed k = false
    · rw [if_pos hrev] at hfk
      cases hfk
    · have hrevT : lookupRevealed revealed k = true := by
        cases hh : lookupRevealed revealed k
        · exact absurd hh hrev
        · rfl
      refine ⟨k, hrevT, ?_⟩
      rw [if_neg hrev] at hfk
      intro hnil
      rw [hnil] at hfk
      simp at hfk
  · rintro ⟨k, hrev, hvis⟩ htrnil
    have hk : k ∈ revealed.map Prod.fst := lookupRevealed_mem_keys revealed k hrev
    have hnone := (List.filterMap_eq_nil_iff.mp htrnil) k hk
    have hvis2 : (lookupVisits visits k).isEmpty = false := by
      cases hh : (lookupVisits visits k).isEmpty
      · rfl
      · exact absurd (List.isEmpty_iff.mp hh) hvis
    rw [hrev] at hnone
    simp [hvis2] at hnone

/-- C7 (Heat normalization): when at least one revealed cell carries a
non-empty visit record, the heat grid has maximum exactly 1; with no
such evidence every entry is exactly 1. -/
theorem buildHeat_normalization (t : Int) (visits : List (Cell × List Int))
    (revealed : List (Cell × Bool)) :
    ((∃ k, lookupRevealed revealed k = true ∧ lookupVisits visits k ≠ []) →
      gridMax (buildHeat t visits revealed) = 1) ∧
    (¬ (∃ k, lookupRevealed revealed k = true ∧ lookupVisits visits k ≠ []) →
      ∀ c ∈ boardCells, buildHeat t visits revealed c = 1) := by
  constructor
  · intro _
    exact gridMax_buildHeat t visits revealed
  · intro hno c _
    have htr : heatTraces visits revealed = [] := by
      by_contra hne
      exact hno ((heatTraces_ne_nil_iff visits revealed).mp hne)
    simp [buildHeat, htr]

/-- Witness for C7 at concrete evidence: cell (0,0) revealed with visit
turn 1. -/
theorem buildHeat_normalization_witness :
    (∃ k, lookupRevealed [(⟨0, 0⟩, true)] k = true ∧
        lookupVisits [(⟨0, 0⟩, [1])] k ≠ []) ∧
      gridMax (buildHeat 2 [(⟨0, 0⟩, [1])] [(⟨0, 0⟩, true)]) = 1 :=
  ⟨⟨⟨0, 0⟩, by decide, by decide⟩,
    (buildHeat_normalization 2 [(⟨0, 0⟩, [1])] [(⟨0, 0⟩, true)]).1
      ⟨⟨0, 0⟩, by decide, by decide⟩⟩

/-- C8 (Belief noninterference): the pursuer belief computation reads the
visit store only at revealed cells — two visit maps agreeing on every
revealed-true cell produce identical heat grids, whatever the hidden
evader position or unrevealed visits are. -/
theorem buildHeat_noninterference (t : Int) (v1 v2 : List (Cell × List Int))
    (revealed : List (Cell × Bool))
    (hagree : ∀ k, lookupRevealed revealed k = true →
      lookupVisits v1 k = lookupVisits v2 k) :
    buildHeat t v1 revealed = buildHeat t v2 revealed := by
  have htr : heatTraces v1 revealed = heatTraces v2 revealed := by
    unfold heatTraces
    apply List.filterMap_congr
    intro k _
    by_cases hrev : lookupRevealed revealed k = false
    · simp [hrev]
    · have hrevT : lookupRevealed revealed k = true := by
        cases hh : lookupRevealed revealed k
        · exact absurd hh hrev
        · rfl
      rw [hagree k hrevT]
  simp only [buildHeat, htr]

/-- Witness for C8: the two visit maps differ on the unrevealed cell
(3,3) yet produce the same heat grid. -/
theorem buildHeat_noninterference_witness :
    buildHeat 3 [(⟨0, 0⟩, [1]), (⟨3, 3⟩, [2])] [(⟨0, 0⟩, true)] =
      buildHeat 3 [(⟨0, 0⟩, [1])] [(⟨0, 0⟩, true)] :=
  buildHeat_noninterference 3 [(⟨0, 0⟩, [1]), (⟨3, 3⟩, [2])] [(⟨0, 0⟩, [1])]
    [(⟨0, 0⟩, true)] (by
      intro k hk
      by_cases h0 : k = ⟨0, 0⟩
      · subst h0
        decide
      · by_cases h3 : k = ⟨3, 3⟩
        · subst h3
          exact absurd hk (by decide)
        · have hn1 : ¬ k ∈ ([(⟨0, 0⟩, [1]), (⟨3, 3⟩, [2])] :
              List (Cell × List Int)).map Prod.fst := by
            simp [h0, h3]
          have hn2 : ¬ k ∈ ([(⟨0, 0⟩, [1])] : List (Cell × List Int)).map Prod.fst := by
            simp [h0]
          unfold lookupVisits
          rw [recLookup_not_key _ _ _ hn1, recLookup_not_key _ _ _ hn2])

/-- C10 (Constant confidence): the confidence derived from any heat grid
that `buildHeat` produces is the constant 95, because the grid maximum
is always exactly 1 and round(35 + 60) clamped into [35, 95] is 95; in
particular a confidence below 55 can never occur. -/
theorem heatConfidence_buildHeat_95 (t : Int) (visits : List (Cell × List Int))
    (revealed : List (Cell × Bool)) :
    heatConfidence (buildHeat t visits revealed) = 95 :=
  heatConfidence_of_gridMax_one (buildHeat t visits revealed)
    (gridMax_buildHeat t visits revealed)

/-- C9 (Chatter asymmetry): the confidence attached to every chatter
line is never below the 55 falsification threshold (it is the constant
95), so the pre-final-turn falsification clause can never fire; and the
emitted focus quadrant is, at every turn — in particular the final one —
the quadrant of a maximal-heat cell, i.e. the hint is always truthful. -/
theorem chatter_truthful (t : Int) (visits : List (Cell × List Int))
    (revealed : List (Cell × Bool)) :
    55 ≤ heatConfidence (buildHeat t visits revealed) ∧
      ∃ c, c ∈ boardCells ∧
        (∀ q ∈ boardCells, buildHeat t visits revealed q ≤ buildHeat t visits revealed c) ∧
        chatterFocus (buildHeat t visits revealed) = quadrantOfCell c := by
  constructor
  · rw [heatConfidence_of_gridMax_one _ (gridMax_buildHeat t visits revealed)]
    norm_num
  · set hb := buildHeat t visits revealed with hhb
    have hperm := List.mergeSort_perm (boardCells.map (fun x => (x, hb x)))
      (fun a b => decide (b.2 ≤ a.2))
    set sorted := (boardCells.map (fun x => (x, hb x))).mergeSort
      (fun a b => decide (b.2 ≤ a.2)) with hsorted
    have hne : sorted ≠ [] := by
      intro hnil
      have hlen := hperm.length_eq
      rw [hnil, List.length_nil, List.length_map] at hlen
      have hbc : boardCells.length = 25 := by decide
      rw [hbc] at hlen
      exact absurd hlen (by norm_num)
    obtain ⟨a, tl, hcons⟩ := List.exists_cons_of_ne_nil hne
    have hsortpw : List.Pairwise (fun x y => decide (y.2 ≤ x.2) = true) sorted := by
      apply List.sorted_mergeSort
      · intro x y z hxy hyz
        simp only [decide_eq_true_eq] at *
        exact le_trans hyz hxy
      · intro x y
        simp only [Bool.or_eq_true, decide_eq_true_eq]
        exact le_total y.2 x.2
    have hamem : a ∈ boardCells.map (fun x => (x, hb x)) := by
      have ha : a ∈ sorted := by
        rw [hcons]
        exact List.mem_cons_self a tl
      exact hperm.mem_iff.mp ha
    obtain ⟨c0, hc0mem, hc0⟩ := List.mem_map.mp hamem
    refine ⟨c0, hc0mem, ?_, ?_⟩
    · intro q hq
      have hqmem : (q, hb q) ∈ sorted := hperm.mem_iff.mpr (List.mem_map.mpr ⟨q, hq, rfl⟩)
      rw [hcons] at hqmem
      rcases List.mem_cons.mp hqmem with heq | hmemtl
      · have h1 : hb q = hb c0 := congrArg Prod.snd (heq.trans hc0.symm)
        exact le_of_eq h1
      · rw [hcons] at hsortpw
        have hrel := (List.pairwise_cons.mp hsortpw).1 _ hmemtl
        simp only [decide_eq_true_eq] at hrel
        have h2 : a.2 = hb c0 := by
          rw [← hc0]
        calc hb q = (q, hb q).2 := rfl
          _ ≤ a.2 := hrel
          _ = hb c0 := h2
    · show quadrantOfCell (topCellsByHeat hb 3).headI = quadrantOfCell c0
      have htop : (topCellsByHeat hb 3).headI = a.1 := by
        unfold topCellsByHeat
        dsimp only
        rw [← hsorted, hcons]
        simp
      rw [htop, ← hc0]
